import Mathlib

/-!
Shallow embedding of the simulation-and-session engine of
`src/App.jsx` (swing_trade_sim).

JS numbers are modelled as elements of a linear ordered field: the generic
session operations are polymorphic (instantiated at `ℚ` for concrete
evaluation), while the price process, which uses `Math.exp`, lives over `ℝ`.
Every call to `Math.random()` is passed in explicitly as a parameter (the
draw itself, with its interval recorded as a hypothesis where relevant).
UI-only state (floating texts, chart rendering config) is omitted; the
`floatingTexts` list and `createFloatingText` are fire-and-forget visuals
with no influence on any other field.
-/

namespace SwingSim

/-! ### PriceProcess (App.jsx lines 35-45) -/

/-- Model of `generatePrice(prev, mu, sigma)`; `eps` is the draw
`Math.random() * 2 - 1` (an element of `[-1, 1]`).  `Math.sqrt(dt)` is
`Real.sqrt` and `sigma ** 2` is `sigma ^ 2`. -/
noncomputable def generatePrice (prev mu sigma eps : ℝ) : ℝ :=
  let dt : ℝ := 1
  prev * Real.exp ((mu - 0.5 * sigma ^ 2) * dt + sigma * Real.sqrt dt * eps)

/-- Loop of `generateInitialPrices`:
`for (let i = 1; i < len; i++) arr.push(generatePrice(arr[i - 1], mu, sigma))`.
`arr[i - 1]` is the last element of `arr` because `arr.length = i` at the
start of iteration `i`; `e i` is the shock drawn at iteration `i`. -/
noncomputable def genLoop (len : ℕ) (mu sigma : ℝ) (e : ℕ → ℝ) (i : ℕ) (arr : List ℝ) :
    List ℝ :=
  if i < len then
    genLoop len mu sigma e (i + 1) (arr ++ [generatePrice (arr.getLastD 0) mu sigma (e i)])
  else arr
termination_by len - i

/-- Model of `generateInitialPrices(len, start, mu, sigma)`: `arr = [start]`
followed by the seeding loop. -/
noncomputable def generateInitialPrices (len : ℕ) (start mu sigma : ℝ) (e : ℕ → ℝ) :
    List ℝ :=
  genLoop len mu sigma e 1 [start]

/-! ### IndicatorEngine: sma (App.jsx lines 48-58) -/

/-- Loop of `sma`: at index `i` the running sum gains `data[i]`, loses
`data[i - window]` once `i >= window`, and pushes `sum / window` once
`i >= window - 1` (for `window = 0`, JS compares against `-1`; truncated
`ℕ` subtraction agrees because both conditions are then always true). -/
def smaLoop {α : Type} [Field α] (data : List α) (window : ℕ) (i : ℕ) (acc : α) : List α :=
  if h : i < data.length then
    let s1 := acc + data.get ⟨i, h⟩
    let s2 := if window ≤ i then s1 - data.getD (i - window) 0 else s1
    let rest := smaLoop data window (i + 1) s2
    if window - 1 ≤ i then s2 / (window : α) :: rest else rest
  else []
termination_by data.length - i

/-- Model of `sma(data, window)`. -/
def sma {α : Type} [Field α] (data : List α) (window : ℕ) : List α :=
  if data.length < window then [] else smaLoop data window 0 0

/-- Naive reference implementation of the sliding-window mean, written from
the spec's words ("each value equals the arithmetic mean of the
corresponding window", recomputed from scratch for every window), to be
compared with the incremental `sma`. -/
def smaSpec {α : Type} [Field α] (data : List α) (window : ℕ) : List α :=
  if data.length < window then []
  else (List.range (data.length - window + 1)).map
    (fun i => ((data.drop i).take window).sum / (window : α))

/-! ### CandleAggregator: buildCandles (App.jsx lines 68-80) -/

/-- A candle `{ x, o, h, l, c }` exactly as pushed by `buildCandles`. -/
structure Candle (α : Type) where
  x : ℕ
  o : α
  h : α
  l : α
  c : α
  deriving DecidableEq

/-- Loop of `buildCandles`: `for (let i = 0; i < prices.length; i += group)`
with `slice = prices.slice(i, i + group)`; an empty slice breaks the loop
(which only happens for `group = 0`).  `Math.max(...slice)` and
`Math.min(...slice)` are the maximum and minimum of the (nonempty) slice. -/
def buildCandlesLoop {α : Type} [LinearOrder α] [Zero α] (prices : List α) (group i : ℕ) :
    List (Candle α) :=
  if hi : i < prices.length then
    if hs : ((prices.drop i).take group).length = 0 then []
    else
      let slice := (prices.drop i).take group
      { x := i, o := slice.headD 0, h := slice.maximum.unbot' 0,
        l := slice.minimum.untop' 0, c := slice.getLastD 0 } ::
      buildCandlesLoop prices group (i + group)
  else []
termination_by prices.length - i
decreasing_by
  simp only [List.length_take, List.length_drop] at hs
  omega

/-- Model of `buildCandles(prices, group)` (callers pass `group = 5`). -/
def buildCandles {α : Type} [LinearOrder α] [Zero α] (prices : List α) (group : ℕ) :
    List (Candle α) :=
  buildCandlesLoop prices group 0

/-! ### Store items (App.jsx lines 83-141) -/

/-- The fields of a shop item consumed by `handlePurchase`: `id`, `type`
and `price` (label/colors are UI-only). -/
structure Item (α : Type) where
  id : String
  type : String
  price : α
  deriving DecidableEq

/-- `SHOP_ITEMS`: themes and chart models with `price > 0`, then all stats
items, in source order. -/
def SHOP_ITEMS {α : Type} [LinearOrderedField α] : List (Item α) :=
  [⟨"dark-purple", "theme", 5⟩, ⟨"dark-green", "theme", 5⟩, ⟨"light-moss", "theme", 5⟩,
   ⟨"candle", "chart", 25⟩,
   ⟨"sma_short", "stat", 5⟩, ⟨"ema_mid", "stat", 5⟩, ⟨"sma_long", "stat", 5⟩]

/-! ### Game state (App.jsx lines 144-182) -/

/-- All non-UI `useState` fields of `App`, in source order.  `timeLeft` is
an integer count of seconds (set to 60, decremented, floored at 0). -/
structure GameState (α : Type) where
  prices : List α
  balance : α
  portfolio : α
  timeLeft : ℕ
  mu : α
  sigma : α
  running : Bool
  finished : Bool
  initialClick : Bool
  purchasePercent : α
  savedCoins : α
  unlockedThemes : List String
  selectedThemeId : String
  unlockedCharts : List String
  selectedChart : String
  unlockedStats : List String
  enabledStats : List String
  showSettings : Bool
  showShop : Bool
  deriving DecidableEq

/-- `prices[prices.length - 1]` as read by the tick, `handleClick` and the
finish effect; the series is never empty, so the default is irrelevant. -/
def currentPrice {α : Type} [Zero α] (s : GameState α) : α :=
  s.prices.getLastD 0

/-! ### Price / regime tick (App.jsx lines 185-214) -/

/-- One firing of the price interval: appends
`generatePrice(prev[prev.length - 1], mu, sigma)` and keeps the last
`maxPoints` entries (`updated.slice(-maxPoints)`), then applies the regime
updates `mu += u / 500` (with `u = Math.random() - 0.5`) and, when
`shock` (`Math.random() < 0.3`), `sigma = r / 25` (with `r = Math.random()`). -/
noncomputable def priceTick (s : GameState ℝ) (eps u r : ℝ) (shock : Bool) : GameState ℝ :=
  let maxPoints : ℕ := if s.selectedChart = "candle" then 300 else 100
  let next := generatePrice (currentPrice s) s.mu s.sigma eps
  let updated := s.prices ++ [next]
  { s with prices := updated.drop (updated.length - maxPoints),
           mu := s.mu + u / 500,
           sigma := if shock then r / 25 else s.sigma }

/-- Loop of the candle-switch effect: `while (p.length < CANDLE_INIT)
p.push(generatePrice(p[p.length - 1], mu, sigma))` with `CANDLE_INIT = 50`. -/
noncomputable def extendLoop (mu sigma : ℝ) (e : ℕ → ℝ) (p : List ℝ) : List ℝ :=
  if p.length < 50 then
    extendLoop mu sigma e (p ++ [generatePrice (p.getLastD 0) mu sigma (e p.length)])
  else p
termination_by 50 - p.length
decreasing_by
  simp only [List.length_append, List.length_cons, List.length_nil]
  omega

/-- The effect that tops the series up to `CANDLE_INIT = 50` points when the
candle chart is selected. -/
noncomputable def extendForCandle (s : GameState ℝ) (e : ℕ → ℝ) : GameState ℝ :=
  if s.selectedChart = "candle" ∧ s.prices.length < 50 then
    { s with prices := extendLoop s.mu s.sigma e s.prices }
  else s

/-! ### Timer and finish (App.jsx lines 218-239) -/

/-- One firing of the 1-second countdown interval (it is installed only
while `running`): `setTimeLeft(t => (t > 0 ? t - 1 : 0))`. -/
def countdownTick {α : Type} (s : GameState α) : GameState α :=
  if s.running then
    { s with timeLeft := if 0 < s.timeLeft then s.timeLeft - 1 else 0 }
  else s

/-- The finish effect: it returns early unless `running && timeLeft = 0`;
otherwise it liquidates the position at the final price, adds
`profitPct * 100` coins when `profitPct = (newBalance - 100) / 100` is
positive, and moves to the finished phase. -/
def checkFinish {α : Type} [LinearOrderedField α] (s : GameState α) : GameState α :=
  if s.running = true ∧ s.timeLeft = 0 then
    let finalPrice := currentPrice s
    let earned := s.portfolio * finalPrice
    let newBalance := s.balance + earned
    let profitPct := (newBalance - 100) / 100
    { s with savedCoins := if profitPct > 0 then s.savedCoins + profitPct * 100 else s.savedCoins,
             balance := newBalance,
             portfolio := 0,
             running := false,
             finished := true }
  else s

/-! ### Interactions (App.jsx lines 248-304) -/

/-- `handleClick`: `rightSide` is `clickX > width / 2`.  Blocked by popups or
a finished game; the first right click starts the session; otherwise a right
click buys (if `balance >= 10`) and a left click sells the whole position
(if `portfolio > 0`). -/
def handleClick {α : Type} [LinearOrderedField α] (s : GameState α) (rightSide : Bool) :
    GameState α :=
  if s.showSettings || s.showShop || s.finished then s
  else
    let price := currentPrice s
    if !s.initialClick && rightSide then
      { s with initialClick := true, running := true, timeLeft := 60 }
    else if !s.running || !s.initialClick then s
    else if rightSide then
      if s.balance ≥ 10 then
        let amount := s.balance * (s.purchasePercent / 100) / price
        let spent := amount * price
        { s with balance := s.balance - spent, portfolio := s.portfolio + amount }
      else s
    else
      if s.portfolio > 0 then
        let earned := s.portfolio * price
        { s with balance := s.balance + earned, portfolio := 0 }
      else s

/-- `resetToHome` over the session fields (the UI popup flags are not
touched by it); the series is reseeded with fresh draws `e`. -/
noncomputable def resetToHome (s : GameState ℝ) (e : ℕ → ℝ) : GameState ℝ :=
  let initLen : ℕ := if s.selectedChart = "candle" then 50 else 10
  { s with balance := 100,
           portfolio := 0,
           timeLeft := 60,
           mu := 0.001,
           sigma := 0.01,
           running := false,
           finished := false,
           initialClick := false,
           prices := generateInitialPrices initLen 100 0.001 0.01 e }

/-! ### Shop logic (App.jsx lines 307-337) -/

/-- `handlePurchase(item)`: per category, owned items are ignored, otherwise
the item is unlocked and its price deducted when affordable. -/
def handlePurchase {α : Type} [LinearOrderedField α] (s : GameState α) (item : Item α) :
    GameState α :=
  if item.type = "theme" then
    if item.id ∈ s.unlockedThemes then s
    else if s.savedCoins ≥ item.price then
      { s with savedCoins := s.savedCoins - item.price,
               unlockedThemes := s.unlockedThemes ++ [item.id] }
    else s
  else if item.type = "chart" then
    if item.id ∈ s.unlockedCharts then s
    else if s.savedCoins ≥ item.price then
      { s with savedCoins := s.savedCoins - item.price,
               unlockedCharts := s.unlockedCharts ++ [item.id] }
    else s
  else if item.type = "stat" then
    if item.id ∈ s.unlockedStats then s
    else if s.savedCoins ≥ item.price then
      { s with savedCoins := s.savedCoins - item.price,
               unlockedStats := s.unlockedStats ++ [item.id] }
    else s
  else s

/-- `applyTheme(id)`: only unlocked themes can be selected. -/
def applyTheme {α : Type} (s : GameState α) (id : String) : GameState α :=
  if id ∈ s.unlockedThemes then { s with selectedThemeId := id } else s

/-- `toggleStat(id)`: only unlocked indicators can be toggled. -/
def toggleStat {α : Type} (s : GameState α) (id : String) : GameState α :=
  if id ∈ s.unlockedStats then
    { s with enabledStats :=
        if id ∈ s.enabledStats then s.enabledStats.filter (fun t => t != id)
        else s.enabledStats ++ [id] }
  else s

/-- The settings popup's purchase-percent range input (`min 10`, `max 100`,
`step 10`); the bound on the submitted value is recorded in `Reachable`. -/
def setPurchasePercent {α : Type} (s : GameState α) (p : α) : GameState α :=
  { s with purchasePercent := p }

/-- `setShowSettings`. -/
def setShowSettings {α : Type} (s : GameState α) (b : Bool) : GameState α :=
  { s with showSettings := b }

/-- `setShowShop`. -/
def setShowShop {α : Type} (s : GameState α) (b : Bool) : GameState α :=
  { s with showShop := b }

/-- `setSelectedChart(id)`: offered in settings for `id ∈ unlockedCharts`. -/
def setSelectedChart {α : Type} (s : GameState α) (id : String) : GameState α :=
  { s with selectedChart := id }

/-! ### Initial state and reachability -/

/-- The `useState` initializers of `App` (lines 150-177): note that the
regime starts at `sigma = 0.1` while the series is seeded with `0.01`. -/
noncomputable def initialState (e : ℕ → ℝ) : GameState ℝ :=
  { prices := generateInitialPrices 10 100 0.001 0.01 e,
    balance := 100,
    portfolio := 0,
    timeLeft := 60,
    mu := 0.001,
    sigma := 0.1,
    running := false,
    finished := false,
    initialClick := false,
    purchasePercent := 50,
    savedCoins := 0,
    unlockedThemes := ["dark-default"],
    selectedThemeId := "dark-default",
    unlockedCharts := ["line"],
    selectedChart := "line",
    unlockedStats := [],
    enabledStats := [],
    showSettings := false,
    showShop := false }

/-- A state is reachable when it arises from the initial state by timer
firings, user gestures and the effects of `App`; every `Math.random()` draw
is constrained to its actual interval. -/
inductive Reachable : GameState ℝ → Prop where
  | init (e : ℕ → ℝ) (he : ∀ i, -1 ≤ e i ∧ e i ≤ 1) : Reachable (initialState e)
  | tick {s : GameState ℝ} (eps u r : ℝ) (shock : Bool) (hs : Reachable s)
      (heps : -1 ≤ eps ∧ eps ≤ 1) (hu : -(1/2) ≤ u ∧ u ≤ 1/2) (hr : 0 ≤ r ∧ r ≤ 1) :
      Reachable (priceTick s eps u r shock)
  | extendCandle {s : GameState ℝ} (e : ℕ → ℝ) (he : ∀ i, -1 ≤ e i ∧ e i ≤ 1)
      (hs : Reachable s) : Reachable (extendForCandle s e)
  | countdown {s : GameState ℝ} (hs : Reachable s) : Reachable (countdownTick s)
  | finish {s : GameState ℝ} (hs : Reachable s) : Reachable (checkFinish s)
  | click {s : GameState ℝ} (right : Bool) (hs : Reachable s) :
      Reachable (handleClick s right)
  | purchase {s : GameState ℝ} (item : Item ℝ) (hitem : item ∈ SHOP_ITEMS)
      (hs : Reachable s) : Reachable (handlePurchase s item)
  | percent {s : GameState ℝ} (p : ℝ) (hp : 10 ≤ p ∧ p ≤ 100) (hs : Reachable s) :
      Reachable (setPurchasePercent s p)
  | settings {s : GameState ℝ} (b : Bool) (hs : Reachable s) :
      Reachable (setShowSettings s b)
  | shopPopup {s : GameState ℝ} (b : Bool) (hs : Reachable s) :
      Reachable (setShowShop s b)
  | theme {s : GameState ℝ} (id : String) (hs : Reachable s) :
      Reachable (applyTheme s id)
  | stat {s : GameState ℝ} (id : String) (hs : Reachable s) :
      Reachable (toggleStat s id)
  | chart {s : GameState ℝ} (id : String) (hid : id ∈ s.unlockedCharts)
      (hs : Reachable s) : Reachable (setSelectedChart s id)
  | reset {s : GameState ℝ} (e : ℕ → ℝ) (he : ∀ i, -1 ≤ e i ∧ e i ≤ 1)
      (hs : Reachable s) : Reachable (resetToHome s e)

/-! ### Derived predicates used by the specification theorems -/

/-- An item is owned when its id is in the unlocked set of its category
(cf. the `owned` computation of the shop popup, lines 561-564). -/
def ownedItem {α : Type} (s : GameState α) (item : Item α) : Prop :=
  (item.type = "theme" ∧ item.id ∈ s.unlockedThemes) ∨
  (item.type = "chart" ∧ item.id ∈ s.unlockedCharts) ∨
  (item.type = "stat" ∧ item.id ∈ s.unlockedStats)

/-- The candle contract of the spec for the run starting at offset `cd.x`:
open is the first element, close the last, high a maximal member, low a
minimal member, and the induced OHLC inequalities. -/
def CandleProps {α : Type} [LinearOrder α] [Zero α] (l : List α) (b : ℕ) (cd : Candle α) :
    Prop :=
  cd.x < l.length ∧
  (l.drop cd.x).take b ≠ [] ∧
  cd.o = ((l.drop cd.x).take b).headD 0 ∧
  cd.c = ((l.drop cd.x).take b).getLastD 0 ∧
  cd.h ∈ (l.drop cd.x).take b ∧ (∀ y ∈ (l.drop cd.x).take b, y ≤ cd.h) ∧
  cd.l ∈ (l.drop cd.x).take b ∧ (∀ y ∈ (l.drop cd.x).take b, cd.l ≤ y) ∧
  cd.l ≤ cd.o ∧ cd.l ≤ cd.c ∧ cd.l ≤ cd.h ∧ cd.o ≤ cd.h ∧ cd.c ≤ cd.h

/-- The inductive invariant carried through `Reachable`: nonnegative
position and cash, purchase percent inside the range input's bounds, and a
nonempty, strictly positive price series. -/
def Inv (s : GameState ℝ) : Prop :=
  0 ≤ s.portfolio ∧ 0 ≤ s.balance ∧
  10 ≤ s.purchasePercent ∧ s.purchasePercent ≤ 100 ∧
  s.prices ≠ [] ∧ ∀ p ∈ s.prices, 0 < p

/-! ### Concrete states used by witnesses and counterexamples -/

/-- A mid-session running state over `ℚ` (current price 100, default
purchase percent). -/
def exRunning : GameState ℚ :=
  { prices := [100],
    balance := 100,
    portfolio := 0,
    timeLeft := 30,
    mu := 0.001,
    sigma := 0.1,
    running := true,
    finished := false,
    initialClick := true,
    purchasePercent := 50,
    savedCoins := 0,
    unlockedThemes := ["dark-default"],
    selectedThemeId := "dark-default",
    unlockedCharts := ["line"],
    selectedChart := "line",
    unlockedStats := [],
    enabledStats := [],
    showSettings := false,
    showShop := false }

/-- A running state holding one share, used to refute the unconditional
round-trip claim. -/
def exPosition : GameState ℚ :=
  { exRunning with portfolio := 1 }

/-- A running state whose timer has expired, final price 120 with the whole
balance in one share. -/
def exExpired : GameState ℚ :=
  { exRunning with prices := [120], balance := 0, portfolio := 1, timeLeft := 0 }

/-- A finished state. -/
def exFinished : GameState ℚ :=
  { exRunning with running := false, finished := true }

/-- The all-zero shock stream. -/
noncomputable def zeroStream : ℕ → ℝ := fun _ => 0

/-- A reachable-shaped candle-mode state over `ℝ`, used to exhibit the
reset/startup mismatches. -/
noncomputable def exCandle : GameState ℝ :=
  { initialState zeroStream with selectedChart := "candle" }

/-! ## Basic helper lemmas -/

theorem headD_mem {α : Type} {l : List α} (d : α) (h : l ≠ []) : l.headD d ∈ l := by
  cases l with
  | nil => exact absurd rfl h
  | cons a t => simp

theorem getLastD_mem {α : Type} {l : List α} (d : α) (h : l ≠ []) : l.getLastD d ∈ l := by
  rw [List.getLastD_eq_getLast?, List.getLast?_eq_getLast l h]
  exact List.getLast_mem h

theorem generatePrice_pos {prev : ℝ} (mu sigma eps : ℝ) (h : 0 < prev) :
    0 < generatePrice prev mu sigma eps :=
  mul_pos h (Real.exp_pos _)

theorem currentPrice_pos {s : GameState ℝ} (hne : s.prices ≠ [])
    (hpos : ∀ p ∈ s.prices, 0 < p) : 0 < currentPrice s :=
  hpos _ (getLastD_mem 0 hne)

/-! ## Helper lemmas about the session operations -/

section SessionOps

variable {α : Type} [LinearOrderedField α]

theorem handleClick_buy_eq (s : GameState α)
    (h1 : s.showSettings = false) (h2 : s.showShop = false) (h3 : s.finished = false)
    (h4 : s.running = true) (h5 : s.initialClick = true) (hb : 10 ≤ s.balance) :
    handleClick s true
      = { s with
          balance := s.balance
            - s.balance * (s.purchasePercent / 100) / currentPrice s * currentPrice s,
          portfolio := s.portfolio + s.balance * (s.purchasePercent / 100) / currentPrice s } := by
  simp [handleClick, h1, h2, h3, h4, h5, hb]

theorem handleClick_buy_insufficient (s : GameState α)
    (h1 : s.showSettings = false) (h2 : s.showShop = false) (h3 : s.finished = false)
    (h4 : s.running = true) (h5 : s.initialClick = true) (hb : ¬ 10 ≤ s.balance) :
    handleClick s true = s := by
  simp [handleClick, h1, h2, h3, h4, h5, hb]

theorem handleClick_sell_eq (s : GameState α)
    (h1 : s.showSettings = false) (h2 : s.showShop = false) (h3 : s.finished = false)
    (h4 : s.running = true) (h5 : s.initialClick = true) (hq : 0 < s.portfolio) :
    handleClick s false
      = { s with balance := s.balance + s.portfolio * currentPrice s, portfolio := 0 } := by
  simp [handleClick, h1, h2, h3, h4, h5, hq]

theorem handleClick_sell_zero (s : GameState α)
    (h1 : s.showSettings = false) (h2 : s.showShop = false) (h3 : s.finished = false)
    (h4 : s.running = true) (h5 : s.initialClick = true) (hq : ¬ 0 < s.portfolio) :
    handleClick s false = s := by
  simp [handleClick, h1, h2, h3, h4, h5, hq]

theorem handleClick_finished (s : GameState α) (right : Bool) (h3 : s.finished = true) :
    handleClick s right = s := by
  simp [handleClick, h3]

theorem handleClick_waiting_left (s : GameState α) (h4 : s.running = false) :
    handleClick s false = s := by
  simp [handleClick, h4]

theorem handlePurchase_owned (s : GameState α) (item : Item α) (h : ownedItem s item) :
    handlePurchase s item = s := by
  rcases h with ⟨ht, hm⟩ | ⟨ht, hm⟩ | ⟨ht, hm⟩ <;> simp [handlePurchase, ht, hm]

theorem handlePurchase_insufficient (s : GameState α) (item : Item α)
    (hown : ¬ ownedItem s item) (hc : s.savedCoins < item.price) :
    handlePurchase s item = s := by
  unfold handlePurchase
  by_cases h1 : item.type = "theme"
  · have hm : item.id ∉ s.unlockedThemes := fun hmem => hown (Or.inl ⟨h1, hmem⟩)
    simp [h1, hm, not_le.mpr hc]
  · by_cases h2 : item.type = "chart"
    · have hm : item.id ∉ s.unlockedCharts := fun hmem => hown (Or.inr (Or.inl ⟨h2, hmem⟩))
      simp [h1, h2, hm, not_le.mpr hc]
    · by_cases h3 : item.type = "stat"
      · have hm : item.id ∉ s.unlockedStats := fun hmem => hown (Or.inr (Or.inr ⟨h3, hmem⟩))
        simp [h1, h2, h3, hm, not_le.mpr hc]
      · simp [h1, h2, h3]

theorem handlePurchase_cases (s : GameState α) (item : Item α) :
    handlePurchase s item = s ∨
    (item.type = "theme" ∧ handlePurchase s item
      = { s with savedCoins := s.savedCoins - item.price,
                 unlockedThemes := s.unlockedThemes ++ [item.id] }) ∨
    (item.type = "chart" ∧ handlePurchase s item
      = { s with savedCoins := s.savedCoins - item.price,
                 unlockedCharts := s.unlockedCharts ++ [item.id] }) ∨
    (item.type = "stat" ∧ handlePurchase s item
      = { s with savedCoins := s.savedCoins - item.price,
                 unlockedStats := s.unlockedStats ++ [item.id] }) := by
  unfold handlePurchase
  by_cases h1 : item.type = "theme"
  · by_cases hm : item.id ∈ s.unlockedThemes
    · left; simp [h1, hm]
    · by_cases hc : s.savedCoins ≥ item.price
      · right; left; exact ⟨h1, by simp [h1, hm, hc]⟩
      · left; simp [h1, hm, hc]
  · by_cases h2 : item.type = "chart"
    · by_cases hm : item.id ∈ s.unlockedCharts
      · left; simp [h1, h2, hm]
      · by_cases hc : s.savedCoins ≥ item.price
        · right; right; left; exact ⟨h2, by simp [h1, h2, hm, hc]⟩
        · left; simp [h1, h2, hm, hc]
    · by_cases h3 : item.type = "stat"
      · by_cases hm : item.id ∈ s.unlockedStats
        · left; simp [h1, h2, h3, hm]
        · by_cases hc : s.savedCoins ≥ item.price
          · right; right; right; exact ⟨h3, by simp [h1, h2, h3, hm, hc]⟩
          · left; simp [h1, h2, h3, hm, hc]
      · left; simp [h1, h2, h3]

end SessionOps

/-! ## C4: the price recurrence and its positivity -/

/-- C4: `generatePrice(prev, drift, volatility)` equals
`prev * exp((drift - volatility^2 / 2) + volatility * eps)` (the source's
`dt = 1` and `sqrt(dt) = 1` cancel), and for every positive `prev`, any
drift, any nonnegative volatility and a shock in `[-1, 1]`, the returned
price is strictly positive. -/
theorem generatePrice_formula_pos (prev mu sigma eps : ℝ) :
    generatePrice prev mu sigma eps
      = prev * Real.exp ((mu - 0.5 * sigma ^ 2) + sigma * eps) ∧
    (0 < prev → 0 ≤ sigma → -1 ≤ eps → eps ≤ 1 →
      0 < generatePrice prev mu sigma eps) := by
  constructor
  · simp [generatePrice, Real.sqrt_one]
  · intro hp _ _ _
    exact generatePrice_pos mu sigma eps hp

theorem generatePrice_formula_pos_witness :
    0 < generatePrice 1 0 0 0 :=
  (generatePrice_formula_pos 1 0 0 0).2 one_pos le_rfl (by norm_num) (by norm_num)

/-! ## C1: session finalization -/

/-- C1: when `secondsRemaining` hits 0 while running, the session finalizes
exactly once: the final value `cashBalance + shareQuantity * currentPrice`
becomes the cash balance (the position's worth is added to cash), the
position is reset to 0, and exactly
`max 0 ((finalValue - 100) / 100) * 100` coins are minted (the initial
balance is the constant 100) — in particular a session ending at or below
100 leaves the accumulated coins unchanged.  After firing, `running` is
false and `finished` is true, so re-running the effect is a no-op. -/
theorem checkFinish_finalizes {α : Type} [LinearOrderedField α] (s : GameState α)
    (hr : s.running = true) (ht : s.timeLeft = 0) :
    (checkFinish s).balance = s.balance + s.portfolio * currentPrice s ∧
    (checkFinish s).portfolio = 0 ∧
    (checkFinish s).savedCoins
      = s.savedCoins + max 0 ((s.balance + s.portfolio * currentPrice s - 100) / 100) * 100 ∧
    (s.balance + s.portfolio * currentPrice s ≤ 100 →
      (checkFinish s).savedCoins = s.savedCoins) ∧
    (checkFinish s).running = false ∧
    (checkFinish s).finished = true ∧
    checkFinish (checkFinish s) = checkFinish s := by
  have hgate : s.running = true ∧ s.timeLeft = 0 := ⟨hr, ht⟩
  have hstate : checkFinish s
      = { s with
          savedCoins := if (s.balance + s.portfolio * currentPrice s - 100) / 100 > 0 then
              s.savedCoins + (s.balance + s.portfolio * currentPrice s - 100) / 100 * 100
            else s.savedCoins,
          balance := s.balance + s.portfolio * currentPrice s,
          portfolio := 0,
          running := false,
          finished := true } := by
    simp [checkFinish, hgate]
  refine ⟨?_, ?_, ?_, ?_, ?_, ?_, ?_⟩
  · rw [hstate]
  · rw [hstate]
  · rw [hstate]
    by_cases hp : (s.balance + s.portfolio * currentPrice s - 100) / 100 > 0
    · simp only [if_pos hp]
      rw [max_eq_right (le_of_lt hp)]
    · simp only [if_neg hp]
      rw [max_eq_left (not_lt.mp hp), zero_mul, add_zero]
  · intro hle
    rw [hstate]
    have hp : ¬ (s.balance + s.portfolio * currentPrice s - 100) / 100 > 0 := by
      rw [not_lt]
      apply div_nonpos_of_nonpos_of_nonneg <;> linarith
    simp only [if_neg hp]
  · rw [hstate]
  · rw [hstate]
  · rw [hstate]
    simp [checkFinish]

theorem checkFinish_finalizes_witness :
    (checkFinish exExpired).balance = 120 ∧
    (checkFinish exExpired).portfolio = 0 ∧
    (checkFinish exExpired).savedCoins = 20 ∧
    (checkFinish exExpired).running = false := by
  have h := checkFinish_finalizes exExpired rfl rfl
  refine ⟨?_, h.2.1, ?_, h.2.2.2.2.1⟩
  · rw [h.1]; norm_num [exExpired, exRunning, currentPrice]
  · rw [h.2.2.1]; norm_num [exExpired, exRunning, currentPrice]

/-! ## C2: the buy gesture -/

/-- C2: while the session is running (and no popup is open), a buy gesture
succeeds if and only if `cashBalance ≥ 10`; a successful buy spends exactly
`cashBalance * purchasePercent / 100` and adds
`(cashBalance * purchasePercent / 100) / currentPrice` shares. -/
theorem handleClick_buy_spec {α : Type} [LinearOrderedField α] (s : GameState α)
    (h1 : s.showSettings = false) (h2 : s.showShop = false) (h3 : s.finished = false)
    (h4 : s.running = true) (h5 : s.initialClick = true) (hp : 0 < currentPrice s) :
    (10 ≤ s.balance →
      handleClick s true
        = { s with
            balance := s.balance - s.balance * (s.purchasePercent / 100),
            portfolio := s.portfolio
              + s.balance * (s.purchasePercent / 100) / currentPrice s }) ∧
    (s.balance < 10 → handleClick s true = s) := by
  constructor
  · intro hb
    rw [handleClick_buy_eq s h1 h2 h3 h4 h5 hb]
    have hspent : s.balance * (s.purchasePercent / 100) / currentPrice s * currentPrice s
        = s.balance * (s.purchasePercent / 100) :=
      div_mul_cancel₀ _ (ne_of_gt hp)
    rw [hspent]
  · intro hb
    exact handleClick_buy_insufficient s h1 h2 h3 h4 h5 (not_le.mpr hb)

theorem handleClick_buy_spec_witness :
    10 ≤ exRunning.balance ∧
    handleClick exRunning true
      = { exRunning with
          balance := exRunning.balance - exRunning.balance * (exRunning.purchasePercent / 100),
          portfolio := exRunning.portfolio
            + exRunning.balance * (exRunning.purchasePercent / 100) / currentPrice exRunning } ∧
    (handleClick exRunning true).balance = 50 ∧
    (handleClick exRunning true).portfolio = 1 / 2 := by
  have hb : (10 : ℚ) ≤ exRunning.balance := by norm_num [exRunning]
  have hp : (0 : ℚ) < currentPrice exRunning := by norm_num [exRunning, currentPrice]
  have h := (handleClick_buy_spec exRunning rfl rfl rfl rfl rfl hp).1 hb
  refine ⟨hb, h, ?_, ?_⟩
  · rw [h]; norm_num [exRunning, currentPrice]
  · rw [h]; norm_num [exRunning, currentPrice]

/-! ## C7: the buy/sell round trip -/

/-- C7 as stated is false: from a running state that already holds one
share (balance 100, price 100, purchase percent 50), buying and then
selling the entire position yields balance 200, not the pre-buy 100,
because the sell liquidates the pre-existing share as well. -/
theorem roundTrip_counterexample :
    ¬ (handleClick (handleClick exPosition true) false).balance = exPosition.balance := by
  norm_num [handleClick, exPosition, exRunning, currentPrice]

/-- C7 (amended): for every running state (no popup open) whose position is
zero before the buy, a buy immediately followed by a sell of the entire
position at the same price returns the cash balance exactly to its pre-buy
value — no fee is modeled, and `spent = amount * price` cancels against
`earned = amount * price` exactly. -/
theorem roundTrip_exact {α : Type} [LinearOrderedField α] (s : GameState α)
    (h1 : s.showSettings = false) (h2 : s.showShop = false) (h3 : s.finished = false)
    (h4 : s.running = true) (h5 : s.initialClick = true)
    (hq : s.portfolio = 0) (hpct : 0 < s.purchasePercent) (hp : 0 < currentPrice s) :
    (handleClick (handleClick s true) false).balance = s.balance := by
  by_cases hb : 10 ≤ s.balance
  · rw [handleClick_buy_eq s h1 h2 h3 h4 h5 hb]
    set amount := s.balance * (s.purchasePercent / 100) / currentPrice s with hamount
    have hapos : 0 < amount := by
      apply div_pos _ hp
      apply mul_pos (by linarith) (by positivity)
    set s1 : GameState α :=
      { s with balance := s.balance - amount * currentPrice s,
               portfolio := s.portfolio + amount } with hs1
    have e1 : currentPrice s1 = currentPrice s := rfl
    have e2 : s1.portfolio = s.portfolio + amount := rfl
    rw [handleClick_sell_eq s1 h1 h2 h3 h4 h5 (by rw [e2, hq]; simpa using hapos)]
    show s.balance - amount * currentPrice s + (s.portfolio + amount) * currentPrice s
        = s.balance
    rw [hq]
    ring
  · rw [handleClick_buy_insufficient s h1 h2 h3 h4 h5 hb]
    rw [handleClick_sell_zero s h1 h2 h3 h4 h5 (by rw [hq]; exact lt_irrefl 0)]

theorem roundTrip_exact_witness :
    (handleClick (handleClick exRunning true) false).balance = exRunning.balance :=
  roundTrip_exact exRunning rfl rfl rfl rfl rfl rfl
    (by norm_num [exRunning]) (by norm_num [exRunning, currentPrice])

/-! ## C8: rejections leave the state unchanged -/

/-- C8: every named rejection is a strict no-op: any gesture while
finished; a left gesture while waiting to start; a buy with
`cashBalance < 10`; a sell with zero position; a purchase without enough
reward currency; a purchase of an owned item.  Purchases are atomic: either
nothing happens, or the item's id is appended to its category's unlocked
set and exactly its price is deducted, with no other field touched. -/
theorem rejections_leave_state_unchanged {α : Type} [LinearOrderedField α] :
    (∀ (s : GameState α) (right : Bool), s.finished = true → handleClick s right = s) ∧
    (∀ s : GameState α, s.running = false → handleClick s false = s) ∧
    (∀ s : GameState α, s.showSettings = false → s.showShop = false → s.finished = false →
      s.running = true → s.initialClick = true → s.balance < 10 →
      handleClick s true = s) ∧
    (∀ s : GameState α, s.showSettings = false → s.showShop = false → s.finished = false →
      s.running = true → s.initialClick = true → s.portfolio = 0 →
      handleClick s false = s) ∧
    (∀ (s : GameState α) (item : Item α), ¬ ownedItem s item →
      s.savedCoins < item.price → handlePurchase s item = s) ∧
    (∀ (s : GameState α) (item : Item α), ownedItem s item → handlePurchase s item = s) ∧
    (∀ (s : GameState α) (item : Item α),
      handlePurchase s item = s ∨
      (item.type = "theme" ∧ handlePurchase s item
        = { s with savedCoins := s.savedCoins - item.price,
                   unlockedThemes := s.unlockedThemes ++ [item.id] }) ∨
      (item.type = "chart" ∧ handlePurchase s item
        = { s with savedCoins := s.savedCoins - item.price,
                   unlockedCharts := s.unlockedCharts ++ [item.id] }) ∨
      (item.type = "stat" ∧ handlePurchase s item
        = { s with savedCoins := s.savedCoins - item.price,
                   unlockedStats := s.unlockedStats ++ [item.id] })) := by
  refine ⟨?_, ?_, ?_, ?_, ?_, ?_, ?_⟩
  · intro s right h3
    exact handleClick_finished s right h3
  · intro s h4
    exact handleClick_waiting_left s h4
  · intro s h1 h2 h3 h4 h5 hb
    exact handleClick_buy_insufficient s h1 h2 h3 h4 h5 (not_le.mpr hb)
  · intro s h1 h2 h3 h4 h5 hq
    exact handleClick_sell_zero s h1 h2 h3 h4 h5 (by rw [hq]; exact lt_irrefl 0)
  · intro s item hown hc
    exact handlePurchase_insufficient s item hown hc
  · intro s item hown
    exact handlePurchase_owned s item hown
  · intro s item
    exact handlePurchase_cases s item

theorem rejections_leave_state_unchanged_witness :
    handleClick exFinished true = exFinished ∧
    handlePurchase exRunning ⟨"candle", "chart", 25⟩ = exRunning := by
  refine ⟨(@rejections_leave_state_unchanged ℚ _).1 exFinished true rfl, ?_⟩
  exact (@rejections_leave_state_unchanged ℚ _).2.2.2.2.1 exRunning
    ⟨"candle", "chart", 25⟩ (by simp [ownedItem, exRunning]) (by norm_num [exRunning])

/-! ## C5: the incremental SMA against the naive reference -/

section Sma

variable {α : Type} [Field α]

theorem take_drop_sum_succ (data : List α) (i k : ℕ) (hi : i < data.length) (hk : k ≤ i) :
    ((data.take (i + 1)).drop k).sum = ((data.take i).drop k).sum + data.get ⟨i, hi⟩ := by
  rw [List.take_succ, List.getElem?_eq_getElem hi]
  rw [List.drop_append_of_le_length (by rw [List.length_take]; omega)]
  simp

theorem sum_drop_sub_window (data : List α) (i w : ℕ) (hi : i < data.length) (hw : w ≤ i) :
    ((data.take (i + 1)).drop (i - w)).sum
      = data.getD (i - w) 0 + ((data.take (i + 1)).drop (i - w + 1)).sum := by
  have h1 : i - w < (data.take (i + 1)).length := by
    rw [List.length_take]; omega
  rw [List.drop_eq_getElem_cons h1, List.sum_cons]
  congr 1
  rw [List.getElem_take]
  rw [List.getD_eq_getElem?_getD, List.getElem?_eq_getElem (show i - w < data.length by omega)]
  simp

theorem smaLoop_eq_spec (data : List α) (w : ℕ) (hw : 1 ≤ w) :
    ∀ (n i : ℕ), data.length - i ≤ n →
      smaLoop data w i (((data.take i).drop (i - w)).sum)
        = (List.range' (max i (w - 1)) (data.length - max i (w - 1))).map
            (fun j => ((data.drop (j + 1 - w)).take w).sum / (w : α)) := by
  intro n
  induction n with
  | zero =>
    intro i hn
    rw [smaLoop]
    have hni : ¬ i < data.length := by omega
    rw [dif_neg hni]
    have hz : data.length - max i (w - 1) = 0 := by omega
    rw [hz]
    simp
  | succ n ih =>
    intro i hn
    rw [smaLoop]
    by_cases hlt : i < data.length
    · simp only [dif_pos hlt]
      have hs2 : (if w ≤ i
            then ((data.take i).drop (i - w)).sum + data.get ⟨i, hlt⟩ - data.getD (i - w) 0
            else ((data.take i).drop (i - w)).sum + data.get ⟨i, hlt⟩)
          = ((data.take (i + 1)).drop (i + 1 - w)).sum := by
        by_cases hwi : w ≤ i
        · rw [if_pos hwi]
          rw [← take_drop_sum_succ data i (i - w) hlt (by omega)]
          rw [sum_drop_sub_window data i w hlt hwi]
          have he : i - w + 1 = i + 1 - w := by omega
          rw [he]
          ring
        · rw [if_neg hwi]
          have h1 : i - w = 0 := by omega
          have h2 : i + 1 - w = 0 := by omega
          rw [h1, h2]
          rw [take_drop_sum_succ data i 0 hlt (by omega)]
      rw [hs2]
      by_cases hpush : w - 1 ≤ i
      · have hcomm : (data.take (i + 1)).drop (i + 1 - w)
            = (data.drop (i + 1 - w)).take w := by
          rw [List.drop_take]
          congr 1
          omega
        rw [if_pos hpush]
        rw [ih (i + 1) (by omega)]
        rw [hcomm]
        have hmax1 : max (i + 1) (w - 1) = i + 1 := by omega
        have hmax0 : max i (w - 1) = i := by omega
        rw [hmax1, hmax0]
        have hlen : data.length - i = (data.length - (i + 1)) + 1 := by omega
        rw [hlen, List.range'_succ, List.map_cons]
      · rw [if_neg hpush]
        rw [ih (i + 1) (by omega)]
        have hmax1 : max (i + 1) (w - 1) = w - 1 := by omega
        have hmax0 : max i (w - 1) = w - 1 := by omega
        rw [hmax1, hmax0]
    · rw [dif_neg hlt]
      have hz : data.length - max i (w - 1) = 0 := by omega
      rw [hz]
      simp

theorem sma_eq_smaSpec (data : List α) (w : ℕ) (hw : 1 ≤ w) :
    sma data w = smaSpec data w := by
  unfold sma smaSpec
  by_cases h : data.length < w
  · rw [if_pos h, if_pos h]
  · rw [if_neg h, if_neg h]
    have h0 := smaLoop_eq_spec data w hw data.length 0 (by omega)
    have hacc : (((data.take 0).drop (0 - w)).sum : α) = 0 := by simp
    rw [hacc] at h0
    rw [h0]
    have hmax : max 0 (w - 1) = w - 1 := by omega
    rw [hmax]
    have hlen : data.length - (w - 1) = data.length - w + 1 := by omega
    rw [hlen]
    rw [List.range'_eq_map_range, List.map_map]
    apply List.map_congr_left
    intro j _
    simp only [Function.comp_apply]
    have he : w - 1 + j + 1 - w = j := by omega
    rw [he]

end Sma

/-- C5: for every series and window `w ≥ 1`, the incremental running-sum
`sma` is extensionally equal to the naive recompute-each-window reference
`smaSpec`: it returns `[]` when the series is shorter than the window, and
otherwise a sequence of length `length - w + 1` whose `i`-th value is the
arithmetic mean of elements `i .. i + w - 1`. -/
theorem sma_refines_naive {α : Type} [LinearOrderedField α] (data : List α) (w : ℕ)
    (hw : 1 ≤ w) :
    sma data w = smaSpec data w ∧
    (data.length < w → sma data w = []) ∧
    (w ≤ data.length → (sma data w).length = data.length - w + 1) ∧
    (∀ (i : ℕ) (hi : i < (sma data w).length),
      (sma data w).get ⟨i, hi⟩ = ((data.drop i).take w).sum / (w : α)) := by
  have hmain := sma_eq_smaSpec data w hw
  refine ⟨hmain, ?_, ?_, ?_⟩
  · intro h
    simp only [sma, if_pos h]
  · intro h
    rw [hmain]
    simp only [smaSpec, if_neg (not_lt.mpr h)]
    simp
  · intro i hi
    rw [List.get_of_eq hmain ⟨i, hi⟩]
    by_cases h : data.length < w
    · exfalso
      have hlen0 : (sma data w).length = 0 := by
        simp [sma, if_pos h]
      omega
    · simp only [smaSpec, if_neg h, List.get_eq_getElem, List.getElem_map, List.getElem_range]

theorem sma_refines_naive_witness :
    sma ([1, 2, 3, 4] : List ℚ) 2 = smaSpec [1, 2, 3, 4] 2 ∧
    sma ([1, 2, 3, 4] : List ℚ) 2 = [3 / 2, 5 / 2, 7 / 2] := by
  have h := (sma_refines_naive ([1, 2, 3, 4] : List ℚ) 2 (by norm_num)).1
  refine ⟨h, ?_⟩
  rw [h]
  norm_num [smaSpec, List.range_succ]

/-! ## C6: candle aggregation -/

section Candles

variable {α : Type} [LinearOrder α] [Zero α]

theorem maximum_unbot'_spec (l : List α) (d : α) (h : l ≠ []) :
    l.maximum.unbot' d ∈ l ∧ ∀ y ∈ l, y ≤ l.maximum.unbot' d := by
  cases hm : l.maximum with
  | bot => exact absurd (List.maximum_eq_bot.mp hm) h
  | coe m =>
    obtain ⟨hmem, hub⟩ := List.maximum_eq_coe_iff.mp hm
    exact ⟨hmem, hub⟩

theorem minimum_untop'_spec (l : List α) (d : α) (h : l ≠ []) :
    l.minimum.untop' d ∈ l ∧ ∀ y ∈ l, l.minimum.untop' d ≤ y := by
  cases hm : l.minimum with
  | top => exact absurd (List.minimum_eq_top.mp hm) h
  | coe m =>
    obtain ⟨hmem, hlb⟩ := List.minimum_eq_coe_iff.mp hm
    exact ⟨hmem, hlb⟩

theorem buildCandlesLoop_stop (l : List α) (b i : ℕ) (hni : ¬ i < l.length) :
    buildCandlesLoop l b i = [] := by
  rw [buildCandlesLoop, dif_neg hni]

theorem buildCandlesLoop_step (l : List α) (b i : ℕ) (hi : i < l.length) (hb : 1 ≤ b) :
    buildCandlesLoop l b i
      = { x := i, o := ((l.drop i).take b).headD 0,
          h := ((l.drop i).take b).maximum.unbot' 0,
          l := ((l.drop i).take b).minimum.untop' 0,
          c := ((l.drop i).take b).getLastD 0 } :: buildCandlesLoop l b (i + b) := by
  have hs : ¬ ((l.drop i).take b).length = 0 := by
    rw [List.length_take, List.length_drop]
    omega
  rw [buildCandlesLoop, dif_pos hi, dif_neg hs]

theorem buildCandlesLoop_spec (l : List α) (b : ℕ) (hb : 1 ≤ b) :
    ∀ (n i : ℕ), l.length - i ≤ n →
      (((buildCandlesLoop l b i).map (fun cd => (l.drop cd.x).take b)).flatten
        = l.drop i) ∧
      ((buildCandlesLoop l b i).map Candle.x
        = List.range' i (buildCandlesLoop l b i).length b) ∧
      (∀ cd ∈ buildCandlesLoop l b i, CandleProps l b cd) := by
  intro n
  induction n with
  | zero =>
    intro i hn
    have hni : ¬ i < l.length := by omega
    rw [buildCandlesLoop_stop l b i hni]
    refine ⟨?_, rfl, ?_⟩
    · simp [List.drop_eq_nil_of_le (show l.length ≤ i by omega)]
    · intro cd hcd
      exact absurd hcd (List.not_mem_nil cd)
  | succ n ih =>
    intro i hn
    by_cases hi : i < l.length
    · rw [buildCandlesLoop_step l b i hi hb]
      obtain ⟨ihj, ihx, ihp⟩ := ih (i + b) (by omega)
      have hslice : (l.drop i).take b ≠ [] := by
        have hlen : ((l.drop i).take b).length ≠ 0 := by
          rw [List.length_take, List.length_drop]
          omega
        exact fun he => hlen (by rw [he]; rfl)
      refine ⟨?_, ?_, ?_⟩
      · simp only [List.map_cons, List.flatten_cons]
        rw [ihj]
        have h1 : (l.drop i).drop b = l.drop (i + b) := by rw [List.drop_drop]
        rw [← h1, List.take_append_drop]
      · simp only [List.map_cons, List.length_cons]
        rw [ihx, List.range'_succ]
      · intro cd hcd
        rcases List.mem_cons.mp hcd with hcd | hcd
        · subst hcd
          obtain ⟨hmax_mem, hmax_ub⟩ := maximum_unbot'_spec ((l.drop i).take b) 0 hslice
          obtain ⟨hmin_mem, hmin_lb⟩ := minimum_untop'_spec ((l.drop i).take b) 0 hslice
          unfold CandleProps
          refine ⟨hi, hslice, rfl, rfl, hmax_mem, hmax_ub, hmin_mem, hmin_lb,
            ?_, ?_, ?_, ?_, ?_⟩
          · exact hmin_lb _ (headD_mem 0 hslice)
          · exact hmin_lb _ (getLastD_mem 0 hslice)
          · exact hmin_lb _ hmax_mem
          · exact hmax_ub _ (headD_mem 0 hslice)
          · exact hmax_ub _ (getLastD_mem 0 hslice)
        · exact ihp cd hcd
    · rw [buildCandlesLoop_stop l b i hi]
      refine ⟨?_, rfl, ?_⟩
      · simp [List.drop_eq_nil_of_le (show l.length ≤ i by omega)]
      · intro cd hcd
        exact absurd hcd (List.not_mem_nil cd)

end Candles

/-- C6: for every series and bucket size `b ≥ 1`, `buildCandles` partitions
the series into contiguous non-overlapping runs of `b` ticks starting at
offsets `0, b, 2b, …` (only the final run may be shorter), so concatenating
the runs designated by the candles reconstructs the whole series with no
sample dropped or reordered; each candle's open is the first element of its
run, close the last, high the maximum, low the minimum, index the run's
starting offset, and the OHLC inequalities `low ≤ open, close, high` and
`high ≥ open, close, low` hold. -/
theorem buildCandles_partition {α : Type} [LinearOrderedField α] (l : List α) (b : ℕ)
    (hb : 1 ≤ b) :
    (((buildCandles l b).map (fun cd => (l.drop cd.x).take b)).flatten = l) ∧
    ((buildCandles l b).map Candle.x = List.range' 0 (buildCandles l b).length b) ∧
    (∀ cd ∈ buildCandles l b, CandleProps l b cd) := by
  have h := buildCandlesLoop_spec l b hb l.length 0 (by omega)
  simpa [buildCandles] using h

theorem buildCandles_partition_witness :
    (((buildCandles ([1, 3, 2] : List ℚ) 2).map
        (fun cd => (([1, 3, 2] : List ℚ).drop cd.x).take 2)).flatten = [1, 3, 2]) ∧
    (∀ cd ∈ buildCandles ([1, 3, 2] : List ℚ) 2, CandleProps [1, 3, 2] 2 cd) := by
  have h := buildCandles_partition ([1, 3, 2] : List ℚ) 2 (by norm_num)
  exact ⟨h.1, h.2.2⟩

/-! ## C3: reset vs the initial state -/

theorem genLoop_length (len : ℕ) (mu sigma : ℝ) (e : ℕ → ℝ) :
    ∀ (n i : ℕ) (arr : List ℝ), len - i ≤ n →
      (genLoop len mu sigma e i arr).length = arr.length + (len - i) := by
  intro n
  induction n with
  | zero =>
    intro i arr hn
    rw [genLoop]
    have hni : ¬ i < len := by omega
    rw [if_neg hni]
    omega
  | succ n ih =>
    intro i arr hn
    rw [genLoop]
    by_cases hlt : i < len
    · rw [if_pos hlt]
      rw [ih (i + 1) _ (by omega)]
      simp [List.length_append]
      omega
    · rw [if_neg hlt]
      omega

theorem genLoop_pos (len : ℕ) (mu sigma : ℝ) (e : ℕ → ℝ) :
    ∀ (n i : ℕ) (arr : List ℝ), len - i ≤ n → arr ≠ [] → (∀ x ∈ arr, 0 < x) →
      genLoop len mu sigma e i arr ≠ [] ∧ ∀ x ∈ genLoop len mu sigma e i arr, 0 < x := by
  intro n
  induction n with
  | zero =>
    intro i arr hn hne hpos
    rw [genLoop]
    have hni : ¬ i < len := by omega
    rw [if_neg hni]
    exact ⟨hne, hpos⟩
  | succ n ih =>
    intro i arr hn hne hpos
    rw [genLoop]
    by_cases hlt : i < len
    · rw [if_pos hlt]
      apply ih (i + 1) _ (by omega)
      · simp
      · intro x hx
        rcases List.mem_append.mp hx with hx | hx
        · exact hpos x hx
        · rw [List.mem_singleton.mp hx]
          exact generatePrice_pos mu sigma (e i) (hpos _ (getLastD_mem 0 hne))
    · rw [if_neg hlt]
      exact ⟨hne, hpos⟩

theorem generateInitialPrices_length (len : ℕ) (start mu sigma : ℝ) (e : ℕ → ℝ) :
    (generateInitialPrices len start mu sigma e).length = 1 + (len - 1) := by
  unfold generateInitialPrices
  rw [genLoop_length len mu sigma e len 1 [start] (by omega)]
  simp

theorem generateInitialPrices_pos (len : ℕ) (start mu sigma : ℝ) (e : ℕ → ℝ)
    (hstart : 0 < start) :
    generateInitialPrices len start mu sigma e ≠ [] ∧
    ∀ x ∈ generateInitialPrices len start mu sigma e, 0 < x := by
  unfold generateInitialPrices
  apply genLoop_pos len mu sigma e len 1 [start] (by omega)
  · simp
  · intro x hx
    rw [List.mem_singleton.mp hx]
    exact hstart

/-- C3 as stated is false on two counts, exhibited at a candle-mode state:
the reset sets the regime volatility to 0.01 while its startup value is
0.1, and the regenerated series has 50 points while the startup series has
10. -/
theorem resetToHome_counterexample :
    (resetToHome exCandle zeroStream).sigma ≠ (initialState zeroStream).sigma ∧
    (resetToHome exCandle zeroStream).prices.length
      ≠ (initialState zeroStream).prices.length := by
  constructor
  · show (0.01 : ℝ) ≠ 0.1
    norm_num
  · show (generateInitialPrices (if exCandle.selectedChart = "candle" then 50 else 10)
        100 0.001 0.01 zeroStream).length
      ≠ (generateInitialPrices 10 100 0.001 0.01 zeroStream).length
    rw [if_pos (show exCandle.selectedChart = "candle" from rfl)]
    rw [generateInitialPrices_length, generateInitialPrices_length]
    norm_num

/-- C3 (amended): reset returns balance to 100, shares to 0, timer to 60
and the phase to WaitingToStart; drift returns to its startup value, but
volatility is set to 0.01 — the seeding volatility, not the startup regime
volatility 0.1 — and the series is reseeded by the same rule as at startup
(start price 100, seeding drift 0.001, seeding volatility 0.01) with fresh
draws, with length 10 in line mode and 50 in candle mode, matching the
startup length 10 only in line mode. -/
theorem resetToHome_spec (s : GameState ℝ) (e e0 : ℕ → ℝ) :
    (resetToHome s e).balance = 100 ∧
    (resetToHome s e).portfolio = 0 ∧
    (resetToHome s e).timeLeft = 60 ∧
    (resetToHome s e).running = false ∧
    (resetToHome s e).finished = false ∧
    (resetToHome s e).initialClick = false ∧
    (resetToHome s e).mu = (initialState e0).mu ∧
    (resetToHome s e).sigma = 0.01 ∧
    (initialState e0).sigma = 0.1 ∧
    (resetToHome s e).prices
      = generateInitialPrices (if s.selectedChart = "candle" then 50 else 10)
          100 0.001 0.01 e ∧
    (s.selectedChart ≠ "candle" →
      (resetToHome s e).prices.length = (initialState e0).prices.length) := by
  refine ⟨rfl, rfl, rfl, rfl, rfl, rfl, rfl, rfl, rfl, rfl, ?_⟩
  intro hline
  show (generateInitialPrices (if s.selectedChart = "candle" then 50 else 10)
      100 0.001 0.01 e).length
    = (generateInitialPrices 10 100 0.001 0.01 e0).length
  rw [if_neg hline]
  rw [generateInitialPrices_length, generateInitialPrices_length]

theorem resetToHome_spec_witness :
    (resetToHome (initialState zeroStream) zeroStream).balance = 100 ∧
    (resetToHome (initialState zeroStream) zeroStream).sigma = 0.01 ∧
    (resetToHome (initialState zeroStream) zeroStream).prices.length
      = (initialState zeroStream).prices.length := by
  have h := resetToHome_spec (initialState zeroStream) zeroStream zeroStream
  refine ⟨h.1, h.2.2.2.2.2.2.2.1, h.2.2.2.2.2.2.2.2.2.2 ?_⟩
  show ("line" : String) ≠ "candle"
  simp

/-! ## C9 and C10: the reachability invariant -/

theorem extendLoop_preserves (mu sigma : ℝ) (e : ℕ → ℝ) :
    ∀ (n : ℕ) (p : List ℝ), 50 - p.length ≤ n → p ≠ [] → (∀ x ∈ p, 0 < x) →
      extendLoop mu sigma e p ≠ [] ∧ ∀ x ∈ extendLoop mu sigma e p, 0 < x := by
  intro n
  induction n with
  | zero =>
    intro p hn hne hpos
    rw [extendLoop]
    have hni : ¬ p.length < 50 := by omega
    rw [if_neg hni]
    exact ⟨hne, hpos⟩
  | succ n ih =>
    intro p hn hne hpos
    rw [extendLoop]
    by_cases hlt : p.length < 50
    · rw [if_pos hlt]
      apply ih _ (by simp [List.length_append]; omega)
      · simp
      · intro x hx
        rcases List.mem_append.mp hx with hx | hx
        · exact hpos x hx
        · rw [List.mem_singleton.mp hx]
          exact generatePrice_pos mu sigma (e p.length) (hpos _ (getLastD_mem 0 hne))
    · rw [if_neg hlt]
      exact ⟨hne, hpos⟩

theorem Inv_initialState (e : ℕ → ℝ) : Inv (initialState e) := by
  obtain ⟨hne, hpos⟩ := generateInitialPrices_pos 10 100 0.001 0.01 e (by norm_num)
  exact ⟨le_refl 0, by show (0 : ℝ) ≤ 100; norm_num, by show (10 : ℝ) ≤ 50; norm_num,
    by show (50 : ℝ) ≤ 100; norm_num, hne, hpos⟩

theorem Inv_priceTick (s : GameState ℝ) (eps u r : ℝ) (shock : Bool) (h : Inv s) :
    Inv (priceTick s eps u r shock) := by
  obtain ⟨hq, hb, hp1, hp2, hne, hpos⟩ := h
  refine ⟨hq, hb, hp1, hp2, ?_, ?_⟩
  · show (s.prices ++ [generatePrice (currentPrice s) s.mu s.sigma eps]).drop
        ((s.prices ++ [generatePrice (currentPrice s) s.mu s.sigma eps]).length
          - (if s.selectedChart = "candle" then 300 else 100)) ≠ []
    rw [← List.length_pos, List.length_drop, List.length_append]
    rcases eq_or_ne s.selectedChart "candle" with hc | hc
    · rw [if_pos hc]
      simp only [List.length_singleton]
      omega
    · rw [if_neg hc]
      simp only [List.length_singleton]
      omega
  · intro x hx
    have hx2 : x ∈ s.prices ++ [generatePrice (currentPrice s) s.mu s.sigma eps] :=
      List.drop_subset _ _ hx
    rcases List.mem_append.mp hx2 with hx2 | hx2
    · exact hpos x hx2
    · rw [List.mem_singleton.mp hx2]
      exact generatePrice_pos s.mu s.sigma eps (currentPrice_pos hne hpos)

theorem Inv_extendForCandle (s : GameState ℝ) (e : ℕ → ℝ) (h : Inv s) :
    Inv (extendForCandle s e) := by
  unfold extendForCandle
  split
  · obtain ⟨hq, hb, hp1, hp2, hne, hpos⟩ := h
    obtain ⟨hne2, hpos2⟩ := extendLoop_preserves s.mu s.sigma e 50 s.prices (by omega) hne hpos
    exact ⟨hq, hb, hp1, hp2, hne2, hpos2⟩
  · exact h

theorem Inv_countdownTick (s : GameState ℝ) (h : Inv s) : Inv (countdownTick s) := by
  unfold countdownTick
  split <;> exact h

theorem Inv_checkFinish (s : GameState ℝ) (h : Inv s) : Inv (checkFinish s) := by
  obtain ⟨hq, hb, hp1, hp2, hne, hpos⟩ := h
  unfold checkFinish
  split
  · refine ⟨le_refl 0, ?_, hp1, hp2, hne, hpos⟩
    show 0 ≤ s.balance + s.portfolio * currentPrice s
    have hm : 0 ≤ s.portfolio * currentPrice s :=
      mul_nonneg hq (le_of_lt (currentPrice_pos hne hpos))
    linarith
  · exact ⟨hq, hb, hp1, hp2, hne, hpos⟩

theorem Inv_handleClick (s : GameState ℝ) (right : Bool) (h : Inv s) :
    Inv (handleClick s right) := by
  obtain ⟨hq, hb, hp1, hp2, hne, hpos⟩ := h
  have hcp : 0 < currentPrice s := currentPrice_pos hne hpos
  simp only [handleClick]
  split
  · exact ⟨hq, hb, hp1, hp2, hne, hpos⟩
  · split
    · exact ⟨hq, hb, hp1, hp2, hne, hpos⟩
    · split
      · exact ⟨hq, hb, hp1, hp2, hne, hpos⟩
      · split
        · split
          · refine ⟨?_, ?_, hp1, hp2, hne, hpos⟩
            · show 0 ≤ s.portfolio + s.balance * (s.purchasePercent / 100) / currentPrice s
              have hamt : 0 ≤ s.balance * (s.purchasePercent / 100) / currentPrice s :=
                div_nonneg (mul_nonneg hb (by linarith)) (le_of_lt hcp)
              linarith
            · show 0 ≤ s.balance
                - s.balance * (s.purchasePercent / 100) / currentPrice s * currentPrice s
              rw [div_mul_cancel₀ _ (ne_of_gt hcp)]
              have hle : s.balance * (s.purchasePercent / 100) ≤ s.balance * 1 :=
                mul_le_mul_of_nonneg_left (by linarith) hb
              linarith
          · exact ⟨hq, hb, hp1, hp2, hne, hpos⟩
        · split
          · refine ⟨le_refl 0, ?_, hp1, hp2, hne, hpos⟩
            show 0 ≤ s.balance + s.portfolio * currentPrice s
            have hm : 0 ≤ s.portfolio * currentPrice s := mul_nonneg hq (le_of_lt hcp)
            linarith
          · exact ⟨hq, hb, hp1, hp2, hne, hpos⟩

theorem Inv_handlePurchase (s : GameState ℝ) (item : Item ℝ) (h : Inv s) :
    Inv (handlePurchase s item) := by
  obtain ⟨hq, hb, hp1, hp2, hne, hpos⟩ := h
  unfold handlePurchase
  repeat' split
  all_goals exact ⟨hq, hb, hp1, hp2, hne, hpos⟩

theorem Inv_resetToHome (s : GameState ℝ) (e : ℕ → ℝ) (h : Inv s) :
    Inv (resetToHome s e) := by
  obtain ⟨_, _, hp1, hp2, _, _⟩ := h
  obtain ⟨hne2, hpos2⟩ := generateInitialPrices_pos
    (if s.selectedChart = "candle" then 50 else 10) 100 0.001 0.01 e (by norm_num)
  exact ⟨le_refl 0, by show (0 : ℝ) ≤ 100; norm_num, hp1, hp2, hne2, hpos2⟩

theorem Inv_setPurchasePercent (s : GameState ℝ) (p : ℝ) (hp : 10 ≤ p ∧ p ≤ 100)
    (h : Inv s) : Inv (setPurchasePercent s p) := by
  obtain ⟨hq, hb, _, _, hne, hpos⟩ := h
  exact ⟨hq, hb, hp.1, hp.2, hne, hpos⟩

theorem Inv_applyTheme (s : GameState ℝ) (id : String) (h : Inv s) :
    Inv (applyTheme s id) := by
  unfold applyTheme
  split <;> exact h

theorem Inv_toggleStat (s : GameState ℝ) (id : String) (h : Inv s) :
    Inv (toggleStat s id) := by
  unfold toggleStat
  split <;> exact h

theorem reachable_inv (s : GameState ℝ) (h : Reachable s) : Inv s := by
  induction h with
  | init e he => exact Inv_initialState e
  | tick eps u r shock hs heps hu hr ih => exact Inv_priceTick _ eps u r shock ih
  | extendCandle e he hs ih => exact Inv_extendForCandle _ e ih
  | countdown hs ih => exact Inv_countdownTick _ ih
  | finish hs ih => exact Inv_checkFinish _ ih
  | click right hs ih => exact Inv_handleClick _ right ih
  | purchase item hitem hs ih => exact Inv_handlePurchase _ item ih
  | percent p hp hs ih => exact Inv_setPurchasePercent _ p hp ih
  | settings b hs ih => exact ih
  | shopPopup b hs ih => exact ih
  | theme id hs ih => exact Inv_applyTheme _ id ih
  | stat id hs ih => exact Inv_toggleStat _ id ih
  | chart id hid hs ih => exact ih
  | reset e he hs ih => exact Inv_resetToHome _ e ih

/-- C9: the share quantity is 0 in the initial state, nonnegative in every
reachable state, and reset to exactly 0 by `resetToHome` and by the finish
transition. -/
theorem shareQuantity_nonneg :
    (∀ e : ℕ → ℝ, (initialState e).portfolio = 0) ∧
    (∀ s : GameState ℝ, Reachable s → 0 ≤ s.portfolio) ∧
    (∀ (s : GameState ℝ) (e : ℕ → ℝ), (resetToHome s e).portfolio = 0) ∧
    (∀ s : GameState ℝ, s.running = true → s.timeLeft = 0 →
      (checkFinish s).portfolio = 0) := by
  refine ⟨fun e => rfl, ?_, fun s e => rfl, ?_⟩
  · intro s h
    exact (reachable_inv s h).1
  · intro s hr ht
    simp [checkFinish, hr, ht]

theorem shareQuantity_nonneg_witness :
    0 ≤ (initialState zeroStream).portfolio ∧ (initialState zeroStream).portfolio = 0 :=
  ⟨shareQuantity_nonneg.2.1 _
      (Reachable.init zeroStream
        (fun i => ⟨by norm_num [zeroStream], by norm_num [zeroStream]⟩)),
    shareQuantity_nonneg.1 zeroStream⟩

/-- C10: in every reachable state the cash balance is nonnegative and the
purchase percent stays within the range input's bounds `[10, 100]`, so a
buy (which spends `balance * purchasePercent / 100`) can never overdraw. -/
theorem cashBalance_nonneg :
    ∀ s : GameState ℝ, Reachable s →
      0 ≤ s.balance ∧ 10 ≤ s.purchasePercent ∧ s.purchasePercent ≤ 100 := by
  intro s h
  obtain ⟨_, hb, hp1, hp2, _, _⟩ := reachable_inv s h
  exact ⟨hb, hp1, hp2⟩

theorem cashBalance_nonneg_witness :
    0 ≤ (initialState zeroStream).balance ∧
    10 ≤ (initialState zeroStream).purchasePercent ∧
    (initialState zeroStream).purchasePercent ≤ 100 :=
  cashBalance_nonneg _
    (Reachable.init zeroStream
      (fun i => ⟨by norm_num [zeroStream], by norm_num [zeroStream]⟩))

end SwingSim
